import Mathlib

/-!
Shallow embedding of the audio core of the interview-simulator repository:
the PCM codec (`float32ToInt16`, `arrayBufferToBase64` in
`src/services/geminiLive.ts`), the base64 transport decoding done at the top
of the playback scheduler's `play` (`src/hooks/useAudioProcessor.ts`), the
playback scheduler state machine (`useAudioPlayer`), the inbound message
handler (`GeminiLiveService.connect.onmessage`) and `sendAudioChunk`.

Conventions of the embedding:
* The JavaScript numbers that matter here are exact in float64 (float32
  samples multiplied by 32767 or 32768 fit in 53 bits of mantissa), so
  samples are modelled as rationals `ℚ` and the arithmetic is exact.
* Storing into an `Int16Array` performs the ECMAScript `ToInt16` conversion:
  truncation toward zero followed by a wrap into the signed 16-bit range;
  both steps are modelled explicitly.
* Byte buffers (`Uint8Array`) are `List Nat` with every element `< 256`.
* Exceptions are modelled with `Except`: a function that may throw to its
  caller returns `Except ε α`; a `try`/`catch` in the source appears as a
  `match` on the `Except` value of the guarded body.
-/

/-- Truncation toward zero of a rational: the rounding step of the
ECMAScript `ToInt16` abstract operation applied to a float64 value. -/
def ratTrunc (q : ℚ) : ℤ :=
  if q < 0 then ⌈q⌉ else ⌊q⌋

/-- ECMAScript `ToInt16`: truncate toward zero, then wrap modulo 2^16 into
the signed range `[-32768, 32767]`.  This is what storing a number into an
`Int16Array` element does. -/
def toInt16 (q : ℚ) : ℤ :=
  let i := ratTrunc q
  let m := i % 65536
  if m < 32768 then m else m - 65536

/-- The clamp `Math.max(-1, Math.min(1, x))` from `float32ToInt16`
(src/services/geminiLive.ts line 98), written with the branch structure of
`Math.min`/`Math.max`. -/
def clampSample (x : ℚ) : ℚ :=
  let m := if x < 1 then x else 1
  if m < -1 then -1 else m

/-- Embedding of `float32ToInt16` (src/services/geminiLive.ts lines 95-102):
for each sample, `s = Math.max(-1, Math.min(1, x))`, then store
`s < 0 ? s * 0x8000 : s * 0x7FFF` into the `Int16Array`. -/
def float32ToInt16 (float32 : List ℚ) : List ℤ :=
  float32.map fun x =>
    let s := clampSample x
    if s < 0 then toInt16 (s * 32768) else toInt16 (s * 32767)

/-- The per-sample mapping exactly as claim C1 words it: clamp, then
`round(s*32768)` when the clamped sample is negative, else `round(s*32767)`.
Claim-side definition, kept for comparison with the code-side
`float32ToInt16`. -/
def encodeFrameClaimedRound (samples : List ℚ) : List ℤ :=
  samples.map fun x =>
    let s := clampSample x
    if s < 0 then round (s * 32768) else round (s * 32767)

/-- The per-sample mapping of the amended claim C1: clamp, then truncate
`s*32768` (negative branch) or `s*32767` (non-negative branch) toward zero,
with no 16-bit wrap.  Spec-side definition for the refinement theorem. -/
def encodeFrameSpecTrunc (samples : List ℚ) : List ℤ :=
  samples.map fun x =>
    let s := clampSample x
    if s < 0 then ratTrunc (s * 32768) else ratTrunc (s * 32767)

theorem neg_one_le_clampSample (x : ℚ) : -1 ≤ clampSample x := by
  unfold clampSample
  dsimp only
  split_ifs <;> linarith

theorem clampSample_le_one (x : ℚ) : clampSample x ≤ 1 := by
  unfold clampSample
  dsimp only
  split_ifs <;> linarith

theorem toInt16_range (q : ℚ) : -32768 ≤ toInt16 q ∧ toInt16 q ≤ 32767 := by
  unfold toInt16
  dsimp only
  have h1 : 0 ≤ ratTrunc q % 65536 := Int.emod_nonneg _ (by norm_num)
  have h2 : ratTrunc q % 65536 < 65536 := Int.emod_lt_of_pos _ (by norm_num)
  split_ifs <;> omega

theorem ratTrunc_range (q : ℚ) (h1 : -32768 ≤ q) (h2 : q ≤ 32767) :
    -32768 ≤ ratTrunc q ∧ ratTrunc q ≤ 32767 := by
  unfold ratTrunc
  split_ifs with hq
  · constructor
    · have := Int.le_ceil q
      have : (-32768 : ℚ) ≤ (⌈q⌉ : ℚ) := le_trans h1 this
      exact_mod_cast this
    · have : ⌈q⌉ ≤ (0 : ℤ) := Int.ceil_le.mpr (by exact_mod_cast le_of_lt hq)
      omega
  · constructor
    · have : (0 : ℤ) ≤ ⌊q⌋ := Int.floor_nonneg.mpr (not_lt.mp hq)
      omega
    · have := Int.floor_le q
      have : (⌊q⌋ : ℚ) ≤ 32767 := le_trans this h2
      exact_mod_cast this

theorem toInt16_eq_ratTrunc (q : ℚ) (h1 : -32768 ≤ q) (h2 : q ≤ 32767) :
    toInt16 q = ratTrunc q := by
  obtain ⟨hl, hr⟩ := ratTrunc_range q h1 h2
  unfold toInt16
  dsimp only
  split_ifs <;> omega

example : float32ToInt16 [(1 : ℚ)/2] = [16383] := by
  norm_num [float32ToInt16, clampSample, toInt16, ratTrunc]

example : encodeFrameClaimedRound [(1 : ℚ)/2] = [16384] := by
  norm_num [encodeFrameClaimedRound, clampSample, round_eq]

/-- C1 counterexample: at the concrete input `[1/2]` the code
(`float32ToInt16`, which truncates via the `Int16Array` store) yields
`16383`, while the claimed per-sample mapping `round(s*32767)` yields
`16384`, so the claim as stated is false. -/
theorem c1_round_counterexample :
    float32ToInt16 [(1 : ℚ)/2] = [16383] ∧
    encodeFrameClaimedRound [(1 : ℚ)/2] = [16384] ∧
    float32ToInt16 [(1 : ℚ)/2] ≠ encodeFrameClaimedRound [(1 : ℚ)/2] := by
  refine ⟨?_, ?_, ?_⟩
  · norm_num [float32ToInt16, clampSample, toInt16, ratTrunc]
  · norm_num [encodeFrameClaimedRound, clampSample, round_eq]
  · norm_num [float32ToInt16, encodeFrameClaimedRound, clampSample, toInt16,
      ratTrunc, round_eq]

/-- C1 (amended): for every input sequence, `float32ToInt16` maps each
sample by clamping it to `[-1,1]` and then computing the truncation toward
zero of `s*32768` if the clamped `s` is negative and of `s*32767`
otherwise; it is pure and total (a total Lean function), and the 16-bit
wrap of the `Int16Array` store never changes the value. -/
theorem c1_float32ToInt16_truncates (samples : List ℚ) :
    float32ToInt16 samples = encodeFrameSpecTrunc samples := by
  unfold float32ToInt16 encodeFrameSpecTrunc
  apply List.map_congr_left
  intro x _
  dsimp only
  have hb1 := neg_one_le_clampSample x
  have hb2 := clampSample_le_one x
  split_ifs with h
  · exact toInt16_eq_ratTrunc _ (by linarith) (by linarith)
  · exact toInt16_eq_ratTrunc _ (by linarith) (by linarith)

/-- C3: for every input sequence of floats in `[-1,1]`, every output sample
of `float32ToInt16` lies within the signed 16-bit range
`[-32768, 32767]`. -/
theorem c3_encode_range (samples : List ℚ)
    (_h : ∀ x ∈ samples, -1 ≤ x ∧ x ≤ 1)
    (y : ℤ) (hy : y ∈ float32ToInt16 samples) :
    -32768 ≤ y ∧ y ≤ 32767 := by
  unfold float32ToInt16 at hy
  obtain ⟨x, _, hx⟩ := List.mem_map.mp hy
  dsimp only at hx
  subst hx
  split_ifs
  · exact toInt16_range _
  · exact toInt16_range _

/-- Witness for C3: the hypotheses hold at the concrete input `[1/2, -1]`,
whose first output sample is `16383`, and the bounds follow from
`c3_encode_range`. -/
theorem c3_encode_range_witness :
    ((16383 : ℤ) ∈ float32ToInt16 [(1 : ℚ)/2, -1]) ∧
    (-32768 ≤ (16383 : ℤ) ∧ (16383 : ℤ) ≤ 32767) :=
  ⟨by norm_num [float32ToInt16, clampSample, toInt16, ratTrunc],
   c3_encode_range [(1 : ℚ)/2, -1] (by norm_num) 16383
     (by norm_num [float32ToInt16, clampSample, toInt16, ratTrunc])⟩

/-- State of the `useAudioPlayer` hook (src/hooks/useAudioProcessor.ts):
`hasCtx` is whether `audioContextRef.current` is non-null (set by `init`),
`nextStartTime` is `nextStartTimeRef.current` (the virtual cursor),
`sources` is `sourceNodesRef.current` — each tracked node is represented by
the one bit that matters to `stop`, namely whether calling `stop()` on it
throws (`true` = throws, e.g. an already-finished unit) — and `isPlaying`
is the `isPlaying` React state. -/
structure PlayerState where
  hasCtx : Bool
  nextStartTime : ℚ
  sources : List Bool
  isPlaying : Bool

/-- State of a fresh hook instance after `init()` (lines 88-97): the refs
start as `0`, `[]`, `false`, and `init` creates the audio context. -/
def initPlayer : PlayerState :=
  { hasCtx := true, nextStartTime := 0, sources := [], isPlaying := false }

/-- Scheduling core of `play` (lines 99-149), parameterized by the chunk's
buffer duration and the device clock `audioContext.currentTime` at the
moment of the call.  Returns the new state and the scheduled start time
passed to `source.start` (`none` when the call returns early because no
audio context exists, line 100).  A freshly scheduled node is tracked as
`false`: halting a started node does not throw. -/
def play (s : PlayerState) (duration currentTime : ℚ) :
    PlayerState × Option ℚ :=
  if s.hasCtx = false then (s, none)
  else
    let start := if s.nextStartTime < currentTime then currentTime
                 else s.nextStartTime
    ({ hasCtx := s.hasCtx
       nextStartTime := start + duration
       sources := s.sources ++ [false]
       isPlaying := true }, some start)

/-- A sequence of `play` calls: each list entry is a chunk's (duration,
device time at arrival).  Returns the final state and the list of start
times actually scheduled. -/
def playRun (s : PlayerState) : List (ℚ × ℚ) → PlayerState × List ℚ
  | [] => (s, [])
  | (d, t) :: rest =>
      let step := play s d t
      let cont := playRun step.1 rest
      (cont.1, (match step.2 with
                | some st => [st]
                | none => []) ++ cont.2)

/-- C10: if `play` is called before `init` has ever been called (no output
audio context exists), the call is a no-op: it returns without scheduling
anything and leaves the virtual cursor, the tracked-unit set, and the
playback-active status unchanged. -/
theorem c10_play_before_init_noop (s : PlayerState) (d t : ℚ)
    (h : s.hasCtx = false) :
    play s d t = (s, none) ∧
    (play s d t).1.nextStartTime = s.nextStartTime ∧
    (play s d t).1.sources = s.sources ∧
    (play s d t).1.isPlaying = s.isPlaying := by
  simp [play, h]

/-- Witness for C10 at a concrete uninitialized state. -/
theorem c10_play_before_init_noop_witness :
    play { hasCtx := false, nextStartTime := 5, sources := [true],
           isPlaying := true } 1 2
      = ({ hasCtx := false, nextStartTime := 5, sources := [true],
           isPlaying := true }, none) ∧
    (play { hasCtx := false, nextStartTime := 5, sources := [true],
            isPlaying := true } 1 2).1.nextStartTime = 5 ∧
    (play { hasCtx := false, nextStartTime := 5, sources := [true],
            isPlaying := true } 1 2).1.sources = [true] ∧
    (play { hasCtx := false, nextStartTime := 5, sources := [true],
            isPlaying := true } 1 2).1.isPlaying = true :=
  c10_play_before_init_noop
    { hasCtx := false, nextStartTime := 5, sources := [true],
      isPlaying := true } 1 2 rfl

/-- C5: for every `play` call on an initialized scheduler, the scheduled
start time equals `max(virtual cursor, device current time)`; whenever the
cursor has fallen behind the device clock, the chunk starts at the device
clock (not the stale cursor) and the cursor is advanced from there; in
particular a chunk arriving at device time `2.0` after a nominal end of
`0.5` starts at `2.0`. -/
theorem c5_play_start_max (s : PlayerState) (d t : ℚ)
    (h : s.hasCtx = true) :
    (play s d t).2 = some (max s.nextStartTime t) ∧
    (s.nextStartTime < t →
      (play s d t).2 = some t ∧ (play s d t).1.nextStartTime = t + d) ∧
    (play { hasCtx := true, nextStartTime := 1/2, sources := s.sources,
            isPlaying := s.isPlaying } d 2).2 = some 2 := by
  refine ⟨?_, fun hlt => ?_, ?_⟩
  · simp only [play, h]
    norm_num
    split_ifs with hc
    · exact (max_eq_right (le_of_lt hc)).symm
    · exact (max_eq_left (not_lt.mp hc)).symm
  · simp [play, h, hlt]
  · norm_num [play]

/-- Witness for C5 at a concrete state with the cursor (`0.5`) behind the
device clock (`2`): the chunk starts at `2` and the cursor advances from
there. -/
theorem c5_play_start_max_witness :
    (play { hasCtx := true, nextStartTime := 1/2, sources := [],
            isPlaying := false } 1 2).2 = some 2 ∧
    (play { hasCtx := true, nextStartTime := 1/2, sources := [],
            isPlaying := false } 1 2).1.nextStartTime = 2 + 1 :=
  (c5_play_start_max
    { hasCtx := true, nextStartTime := 1/2, sources := [],
      isPlaying := false } 1 2 rfl).2.1 (by norm_num)

theorem play_ctx_eq (s : PlayerState) (h : s.hasCtx = true) (d t : ℚ) :
    play s d t =
      ({ hasCtx := s.hasCtx
         nextStartTime := (if s.nextStartTime < t then t
                           else s.nextStartTime) + d
         sources := s.sources ++ [false]
         isPlaying := true },
       some (if s.nextStartTime < t then t else s.nextStartTime)) := by
  simp [play, h]

theorem playRun_cons_ctx (s : PlayerState) (h : s.hasCtx = true) (d t : ℚ)
    (rest : List (ℚ × ℚ)) :
    playRun s ((d, t) :: rest) =
      ((playRun (play s d t).1 rest).1,
       (if s.nextStartTime < t then t else s.nextStartTime) ::
         (playRun (play s d t).1 rest).2) := by
  conv_lhs => rw [playRun]
  rw [play_ctx_eq s h d t]
  rfl

theorem play_ctx_next (s : PlayerState) (h : s.hasCtx = true) (d t : ℚ) :
    (play s d t).1.nextStartTime
      = (if s.nextStartTime < t then t else s.nextStartTime) + d := by
  rw [play_ctx_eq s h d t]

theorem play_ctx_hasCtx (s : PlayerState) (h : s.hasCtx = true) (d t : ℚ) :
    (play s d t).1.hasCtx = true := by
  rw [play_ctx_eq s h d t]
  exact h

theorem playRun_adjacent (chunks : List (ℚ × ℚ)) :
    ∀ s : PlayerState, s.hasCtx = true → ∀ i : Nat, i + 1 < chunks.length →
      (playRun s chunks).2.getD i 0 + (chunks.getD i (0, 0)).1
          ≤ (playRun s chunks).2.getD (i + 1) 0 ∧
      ((chunks.getD (i + 1) (0, 0)).2
          ≤ (playRun s chunks).2.getD i 0 + (chunks.getD i (0, 0)).1 →
        (playRun s chunks).2.getD (i + 1) 0
          = (playRun s chunks).2.getD i 0 + (chunks.getD i (0, 0)).1) := by
  induction chunks with
  | nil =>
      intro s hs i hi
      simp at hi
  | cons hd rest ih =>
      intro s hs i hi
      obtain ⟨d, t⟩ := hd
      rw [playRun_cons_ctx s hs d t rest]
      have hs2 : (play s d t).1.hasCtx = true := play_ctx_hasCtx s hs d t
      cases i with
      | zero =>
          cases rest with
          | nil => simp at hi
          | cons hd2 rest2 =>
              obtain ⟨d2, t2⟩ := hd2
              rw [playRun_cons_ctx _ hs2 d2 t2 rest2]
              simp only [List.getD_cons_zero, List.getD_cons_succ]
              rw [play_ctx_next s hs d t]
              constructor
              · split_ifs <;> linarith
              · intro hle
                rw [if_neg (not_lt.mpr hle)]
      | succ j =>
          have hj : j + 1 < rest.length := by
            simp only [List.length_cons] at hi
            omega
          have hrec := ih (play s d t).1 hs2 j hj
          simpa only [List.getD_cons_succ] using hrec

/-- C4: on an initialized scheduler, for every run of `play` calls with
chunk durations and arbitrary arrival times, chunk `i+1` starts at or
after chunk `i`'s nominal end (start plus duration), and starts exactly at
that nominal end whenever it arrived at or before it; and the concrete run
with durations `[0.5, 0.3, 0.7]` all arriving at device time `0` is
scheduled at start times `[0, 0.5, 0.8]`. -/
theorem c4_schedule_no_overlap_no_gap (s : PlayerState)
    (h : s.hasCtx = true) (chunks : List (ℚ × ℚ)) (i : Nat)
    (hi : i + 1 < chunks.length) :
    ((playRun s chunks).2.getD i 0 + (chunks.getD i (0, 0)).1
        ≤ (playRun s chunks).2.getD (i + 1) 0) ∧
    ((chunks.getD (i + 1) (0, 0)).2
        ≤ (playRun s chunks).2.getD i 0 + (chunks.getD i (0, 0)).1 →
      (playRun s chunks).2.getD (i + 1) 0
        = (playRun s chunks).2.getD i 0 + (chunks.getD i (0, 0)).1) ∧
    (playRun initPlayer [(1/2, 0), (3/10, 0), (7/10, 0)]).2
        = [0, 1/2, 4/5] := by
  obtain ⟨h1, h2⟩ := playRun_adjacent chunks s h i hi
  refine ⟨h1, h2, ?_⟩
  norm_num [playRun, play, initPlayer]

/-- Witness for C4: the concrete three-chunk prompt-delivery run, checked
at the first adjacent pair. -/
theorem c4_schedule_no_overlap_no_gap_witness :
    (playRun initPlayer [(1/2, 0), (3/10, 0), (7/10, 0)]).2
        = [0, 1/2, 4/5] :=
  (c4_schedule_no_overlap_no_gap initPlayer rfl
    [(1/2, 0), (3/10, 0), (7/10, 0)] 0 (by norm_num)).2.2

/-- A `node.stop()` call on one tracked unit, which the browser may answer
with an exception (e.g. for an already-finished unit); the node's bit says
whether it throws. -/
def nodeStop (throws : Bool) : Except Unit Unit :=
  if throws then Except.error () else Except.ok ()

/-- The halt loop of `stop` (lines 153-155): for each tracked node,
`try { node.stop(); } catch (e) { /* ignore */ }` — both outcomes of the
halt continue with the rest of the list. -/
def stopAllNodes : List Bool → Except Unit Unit
  | [] => Except.ok ()
  | n :: rest =>
      match nodeStop n with
      | Except.ok _ => stopAllNodes rest
      | Except.error _ => stopAllNodes rest

/-- Embedding of `stop` (lines 151-163): halt every tracked unit with
per-unit catch, clear the tracked list, reset the virtual cursor to the
device clock when an audio context exists (line 159 checks it), and set
`isPlaying` to `false`.  An unswallowed halt error would surface as
`Except.error`. -/
def stopPlayer (s : PlayerState) (currentTime : ℚ) :
    Except Unit PlayerState :=
  match stopAllNodes s.sources with
  | Except.ok _ =>
      Except.ok
        { hasCtx := s.hasCtx
          nextStartTime := if s.hasCtx then currentTime
                           else s.nextStartTime
          sources := []
          isPlaying := false }
  | Except.error e => Except.error e

theorem stopAllNodes_ok (l : List Bool) : stopAllNodes l = Except.ok () := by
  induction l with
  | nil => rfl
  | cons n rest ih => cases n <;> simp [stopAllNodes, nodeStop, ih]

/-- C6: in every scheduler state, `stop` never throws (errors from halting
already-finished units are swallowed by the per-unit catch), leaves the
tracked-unit set empty, resets the virtual cursor to the device's current
time (when an audio context exists — the only states that have a device
clock), and sets playback-active status to `false`; calling it again from
the resulting state is equally safe and is a fixed point, so repeated
calls and calls with nothing playing are safe. -/
theorem c6_stop_safe (s : PlayerState) (t : ℚ) :
    stopPlayer s t = Except.ok
      { hasCtx := s.hasCtx
        nextStartTime := if s.hasCtx then t else s.nextStartTime
        sources := []
        isPlaying := false } ∧
    stopPlayer
      { hasCtx := s.hasCtx
        nextStartTime := if s.hasCtx then t else s.nextStartTime
        sources := []
        isPlaying := false } t
      = Except.ok
      { hasCtx := s.hasCtx
        nextStartTime := if s.hasCtx then t else s.nextStartTime
        sources := []
        isPlaying := false } := by
  constructor
  · simp [stopPlayer, stopAllNodes_ok]
  · simp only [stopPlayer, stopAllNodes_ok]
    cases hc : s.hasCtx <;> simp

/-- One part of an inbound `modelTurn`; `inlineData` carries the base64
audio payload when present. -/
structure MessagePart where
  inlineData : Option String

/-- The `serverContent` of an inbound message
(src/services/geminiLive.ts lines 34-51). -/
structure ServerContent where
  outputTranscription : Option String
  turnComplete : Bool
  interrupted : Bool
  modelTurn : Option (List MessagePart)

/-- An inbound `LiveServerMessage` as far as `onmessage` inspects it. -/
structure LiveServerMessage where
  serverContent : Option ServerContent

/-- One observable callback invocation made by `onmessage`, in invocation
order. -/
inductive CallbackEvent where
  | transcription (text : String)
  | turnEnd
  | audioData (data : String)
deriving DecidableEq

/-- The optional chain `message.serverContent?.outputTranscription?.text`
(line 36). -/
def outputTx (m : LiveServerMessage) : Option String :=
  m.serverContent.bind ServerContent.outputTranscription

/-- The condition of line 42:
`message.serverContent?.turnComplete || message.serverContent?.interrupted`
(undefined behaves as `false`). -/
def turnBoundary (m : LiveServerMessage) : Bool :=
  match m.serverContent with
  | some sc => sc.turnComplete || sc.interrupted
  | none => false

/-- The optional chain
`message.serverContent?.modelTurn?.parts?.[0]?.inlineData?.data`
(line 47): only the FIRST element of the parts array is consulted. -/
def firstPartAudio (m : LiveServerMessage) : Option String :=
  (m.serverContent.bind ServerContent.modelTurn).bind
    (fun parts => parts.head?.bind MessagePart.inlineData)

/-- Callbacks fired by the transcription section (lines 36-39); the JS
`if (outputTx)` guard is falsy for the empty string. -/
def transcriptionEvents (m : LiveServerMessage) : List CallbackEvent :=
  match outputTx m with
  | some t => if t = "" then [] else [CallbackEvent.transcription t]
  | none => []

/-- Callbacks fired by the turn-boundary section (lines 42-44). -/
def turnEndEvents (m : LiveServerMessage) : List CallbackEvent :=
  if turnBoundary m then [CallbackEvent.turnEnd] else []

/-- Callbacks fired by the audio section (lines 47-50); `if (audioData)` is
falsy for the empty string. -/
def audioEvents (m : LiveServerMessage) : List CallbackEvent :=
  match firstPartAudio m with
  | some d => if d = "" then [] else [CallbackEvent.audioData d]
  | none => []

/-- Embedding of the `onmessage` handler (lines 34-51): the three sections
run in program order and each fires its callback at most once; the result
lists the callback invocations in order. -/
def onmessage (m : LiveServerMessage) : List CallbackEvent :=
  transcriptionEvents m ++ turnEndEvents m ++ audioEvents m

/-- Every inline-data payload present anywhere in the message's
`modelTurn.parts` array — the claim-side notion used by claim C9. -/
def partsAudioData (m : LiveServerMessage) : List String :=
  match m.serverContent.bind ServerContent.modelTurn with
  | some parts => parts.filterMap MessagePart.inlineData
  | none => []

/-- Claim C9 as stated: for every message, the transcript callback fires
whenever an `outputTranscription` text is present, the turn-end callback
fires whenever `turnComplete` or `interrupted` is set, and the audio
callback fires whenever an inlined payload is present anywhere in the
`parts` array. -/
def allCallbacksFireClaim (m : LiveServerMessage) : Prop :=
  (∀ t, outputTx m = some t → CallbackEvent.transcription t ∈ onmessage m) ∧
  (turnBoundary m = true → CallbackEvent.turnEnd ∈ onmessage m) ∧
  (∀ d ∈ partsAudioData m, CallbackEvent.audioData d ∈ onmessage m)

def isTranscriptionEvent : CallbackEvent → Bool
  | CallbackEvent.transcription _ => true
  | _ => false

def isTurnEndEvent : CallbackEvent → Bool
  | CallbackEvent.turnEnd => true
  | _ => false

/-- Concrete message used for claim C7: final fragment plus both
`turnComplete` and `interrupted` set in the same message. -/
def c7Msg : LiveServerMessage :=
  { serverContent := some
      { outputTranscription := some "done"
        turnComplete := true
        interrupted := true
        modelTurn := none } }

/-- C7: for every inbound message carrying both a (nonempty) transcript
fragment and `turnComplete = true`, the handler fires the fragment
callback first and the turn-end callback second, each exactly once — in
particular the turn-end callback fires exactly once even when
`turnComplete` and `interrupted` are both set, since both flags guard a
single callback invocation. -/
theorem c7_fragment_then_turn_end (m : LiveServerMessage) (t : String)
    (h1 : outputTx m = some t) (h2 : t ≠ "")
    (h3 : turnBoundary m = true) :
    onmessage m = CallbackEvent.transcription t :: CallbackEvent.turnEnd ::
      audioEvents m ∧
    (onmessage m).countP isTranscriptionEvent = 1 ∧
    (onmessage m).countP isTurnEndEvent = 1 := by
  have htx : transcriptionEvents m = [CallbackEvent.transcription t] := by
    simp [transcriptionEvents, h1, h2]
  have hte : turnEndEvents m = [CallbackEvent.turnEnd] := by
    simp [turnEndEvents, h3]
  have haud1 : (audioEvents m).countP isTranscriptionEvent = 0 := by
    cases hfa : firstPartAudio m with
    | none => simp [audioEvents, hfa]
    | some d =>
        simp only [audioEvents, hfa]
        split_ifs <;> simp [List.countP_cons, isTranscriptionEvent]
  have haud2 : (audioEvents m).countP isTurnEndEvent = 0 := by
    cases hfa : firstPartAudio m with
    | none => simp [audioEvents, hfa]
    | some d =>
        simp only [audioEvents, hfa]
        split_ifs <;> simp [List.countP_cons, isTurnEndEvent]
  refine ⟨?_, ?_, ?_⟩
  · simp [onmessage, htx, hte]
  · simp [onmessage, htx, hte, List.countP_append, List.countP_cons,
      isTranscriptionEvent, haud1]
  · simp [onmessage, htx, hte, List.countP_append, List.countP_cons,
      isTurnEndEvent, haud2]

/-- Witness for C7 at `c7Msg`: the hypotheses hold concretely and the
conclusion is the fully evaluated callback sequence. -/
theorem c7_fragment_then_turn_end_witness :
    onmessage c7Msg = CallbackEvent.transcription "done" ::
      CallbackEvent.turnEnd :: audioEvents c7Msg ∧
    (onmessage c7Msg).countP isTranscriptionEvent = 1 ∧
    (onmessage c7Msg).countP isTurnEndEvent = 1 :=
  c7_fragment_then_turn_end c7Msg "done" rfl (by decide) rfl

/-- Concrete counterexample message for claim C9: an empty transcript text
is "present", and an audio payload `"x"` is present in the SECOND element
of the parts array; the handler fires no callback at all for this
message. -/
def c9Msg : LiveServerMessage :=
  { serverContent := some
      { outputTranscription := some ""
        turnComplete := false
        interrupted := false
        modelTurn := some [{ inlineData := some "" },
                           { inlineData := some "x" }] } }

/-- C9 counterexample: at `c9Msg` the claim as stated fails — the payload
`"x"` is present in the parts array (second position) yet the audio
callback does not fire, because the handler reads only `parts[0]` and the
JS truthiness guard also drops empty strings; indeed `onmessage` fires
nothing at all here. -/
theorem c9_counterexample : ¬ allCallbacksFireClaim c9Msg := by
  intro h
  have hx : CallbackEvent.audioData "x" ∈ onmessage c9Msg := by
    refine h.2.2 "x" ?_
    simp [partsAudioData, c9Msg]
  simp [onmessage, transcriptionEvents, turnEndEvents, audioEvents,
    outputTx, turnBoundary, firstPartAudio, c9Msg] at hx

/-- C9 (amended): for every inbound message, all applicable callbacks fire:
the transcript callback fires whenever a nonempty `outputTranscription`
text is present, the turn-end callback fires whenever `turnComplete` or
`interrupted` is set, and the audio callback fires whenever the FIRST
element of the `modelTurn.parts` array carries a nonempty inlined audio
payload — also when one message carries several of these signals. -/
theorem c9_all_callbacks_fire (m : LiveServerMessage) :
    (∀ t, outputTx m = some t → t ≠ "" →
        CallbackEvent.transcription t ∈ onmessage m) ∧
    (turnBoundary m = true → CallbackEvent.turnEnd ∈ onmessage m) ∧
    (∀ d, firstPartAudio m = some d → d ≠ "" →
        CallbackEvent.audioData d ∈ onmessage m) := by
  refine ⟨fun t ht hne => ?_, fun hb => ?_, fun d hd hne => ?_⟩
  · simp [onmessage, transcriptionEvents, ht, hne]
  · simp [onmessage, turnEndEvents, hb]
  · simp [onmessage, audioEvents, hd, hne]

/-- Concrete message carrying all three signals at once, for the C9
witness. -/
def c9WitnessMsg : LiveServerMessage :=
  { serverContent := some
      { outputTranscription := some "hi"
        turnComplete := true
        interrupted := false
        modelTurn := some [{ inlineData := some "aa" }] } }

/-- Witness for C9 (amended) at `c9WitnessMsg`: all three callbacks fire
for the one message. -/
theorem c9_all_callbacks_fire_witness :
    CallbackEvent.transcription "hi" ∈ onmessage c9WitnessMsg ∧
    CallbackEvent.turnEnd ∈ onmessage c9WitnessMsg ∧
    CallbackEvent.audioData "aa" ∈ onmessage c9WitnessMsg :=
  ⟨(c9_all_callbacks_fire c9WitnessMsg).1 "hi" rfl (by decide),
   (c9_all_callbacks_fire c9WitnessMsg).2.1 rfl,
   (c9_all_callbacks_fire c9WitnessMsg).2.2 "aa" rfl (by decide)⟩

/-- The remote channel handle obtained by awaiting `this.sessionPromise`;
the one behavior `sendAudioChunk` depends on is whether
`session.sendRealtimeInput` throws on this call. -/
structure GeminiSession where
  sendFails : Bool

/-- Observable outcome of one `sendAudioChunk` call. -/
inductive SendResult where
  | noop
  | sent (mimeType : String) (data : String)
  | logged
deriving DecidableEq

/-- `session.sendRealtimeInput({ media: { mimeType: "audio/pcm;rate=16000",
data } })` (lines 75-80): transmits the chunk tagged with its mime type, or
throws. -/
def sendRealtimeInput (session : GeminiSession) (mimeType data : String) :
    Except String SendResult :=
  if session.sendFails then Except.error "send failed"
  else Except.ok (SendResult.sent mimeType data)

/-- The body of the `try` block of `sendAudioChunk` (lines 74-80):
`await this.sessionPromise` — which rethrows the promise's rejection if
the connection failed — then `sendRealtimeInput`. -/
def sendBody (p : Except String GeminiSession) (b64 : String) :
    Except String SendResult :=
  match p with
  | Except.error e => Except.error e
  | Except.ok session => sendRealtimeInput session "audio/pcm;rate=16000" b64

/-- Embedding of `sendAudioChunk` (lines 71-84): early return when
`this.sessionPromise` is null (line 72), otherwise the try body with the
catch that logs the error (lines 81-83) and does not rethrow.  The
argument is the settled session promise: `none` = no channel, `some` the
promise's outcome. -/
def sendAudioChunk (sessionPromise : Option (Except String GeminiSession))
    (b64 : String) : Except String SendResult :=
  match sessionPromise with
  | none => Except.ok SendResult.noop
  | some p =>
      match sendBody p b64 with
      | Except.ok r => Except.ok r
      | Except.error _ => Except.ok SendResult.logged

/-- C8: for every chunk and every session state, `sendAudioChunk` never
throws to the caller: with no channel it is a no-op, with a transport or
connection failure the error is logged (not propagated), and with an open
working channel the chunk is transmitted tagged with mime type
`audio/pcm;rate=16000`. -/
theorem c8_sendAudioChunk_safe
    (sp : Option (Except String GeminiSession)) (b64 : String)
    (session : GeminiSession) (e : String) :
    (sendAudioChunk sp b64).isOk = true ∧
    (sp = none → sendAudioChunk sp b64 = Except.ok SendResult.noop) ∧
    (sp = some (Except.ok session) → session.sendFails = false →
      sendAudioChunk sp b64
        = Except.ok (SendResult.sent "audio/pcm;rate=16000" b64)) ∧
    (sp = some (Except.ok session) → session.sendFails = true →
      sendAudioChunk sp b64 = Except.ok SendResult.logged) ∧
    (sp = some (Except.error e) →
      sendAudioChunk sp b64 = Except.ok SendResult.logged) := by
  refine ⟨?_, fun h => ?_, fun h hf => ?_, fun h hf => ?_, fun h => ?_⟩
  · match sp with
    | none => rfl
    | some (Except.error e2) => rfl
    | some (Except.ok s2) =>
        cases hf : s2.sendFails <;>
          simp [sendAudioChunk, sendBody, sendRealtimeInput, hf, Except.isOk,
            Except.toBool]
  · simp [h, sendAudioChunk]
  · simp [h, sendAudioChunk, sendBody, sendRealtimeInput, hf]
  · simp [h, sendAudioChunk, sendBody, sendRealtimeInput, hf]
  · simp [h, sendAudioChunk, sendBody]

/-- Witness for C8: a working open channel transmits the chunk with the
PCM 16 kHz mime tag. -/
theorem c8_sendAudioChunk_safe_witness :
    sendAudioChunk (some (Except.ok { sendFails := false })) "chunk"
      = Except.ok (SendResult.sent "audio/pcm;rate=16000" "chunk") :=
  (c8_sendAudioChunk_safe (some (Except.ok { sendFails := false })) "chunk"
    { sendFails := false } "").2.2.1 rfl rfl

/-- The base64 alphabet, index order as used by `btoa`/`atob`. -/
def b64Alphabet : List Char :=
  ['A', 'B', 'C', 'D', 'E', 'F', 'G', 'H', 'I', 'J', 'K', 'L', 'M',
   'N', 'O', 'P', 'Q', 'R', 'S', 'T', 'U', 'V', 'W', 'X', 'Y', 'Z',
   'a', 'b', 'c', 'd', 'e', 'f', 'g', 'h', 'i', 'j', 'k', 'l', 'm',
   'n', 'o', 'p', 'q', 'r', 's', 't', 'u', 'v', 'w', 'x', 'y', 'z',
   '0', '1', '2', '3', '4', '5', '6', '7', '8', '9', '+', '/']

/-- Character for one sextet value (meaningful for inputs below 64). -/
def encodeB64Char (n : Nat) : Char :=
  b64Alphabet.getD n '='

/-- Sextet value of one base64 character; `none` for a character outside
the alphabet (in particular for `'='`). -/
def decodeB64Char (c : Char) : Option Nat :=
  let i := b64Alphabet.indexOf c
  if i < 64 then some i else none

theorem decodeB64Char_encodeB64Char :
    ∀ n < 64, decodeB64Char (encodeB64Char n) = some n := by decide

theorem encodeB64Char_ne_pad : ∀ n < 64, encodeB64Char n ≠ '=' := by decide

/-- `btoa` on a byte sequence (src/services/geminiLive.ts lines 104-112
builds the binary string with one code unit per byte of the `Uint8Array`,
so `btoa` sees exactly the byte sequence): standard base64, three bytes to
four characters, with `=` padding for a 1- or 2-byte tail. -/
def btoa : List Nat → List Char
  | [] => []
  | [b1] =>
      [encodeB64Char (b1 / 4), encodeB64Char (b1 % 4 * 16), '=', '=']
  | [b1, b2] =>
      [encodeB64Char (b1 / 4), encodeB64Char (b1 % 4 * 16 + b2 / 16),
       encodeB64Char (b2 % 16 * 4), '=']
  | b1 :: b2 :: b3 :: rest =>
      encodeB64Char (b1 / 4) ::
      encodeB64Char (b1 % 4 * 16 + b2 / 16) ::
      encodeB64Char (b2 % 16 * 4 + b3 / 64) ::
      encodeB64Char (b3 % 64) ::
      btoa rest

/-- Embedding of `arrayBufferToBase64` (lines 104-112): the loop
`binary += String.fromCharCode(bytes[i])` is the identity on byte values,
so the function is `btoa` of the buffer's bytes. -/
def arrayBufferToBase64 (bytes : List Nat) : List Char :=
  btoa bytes

/-- `atob` followed by the `charCodeAt` loop at the start of `play`
(src/hooks/useAudioProcessor.ts lines 103-108), producing the byte
sequence; `none` models the `InvalidCharacterError` that `atob` throws on
malformed input.  Four characters decode to three bytes; a final `==` or
`=` padding group decodes to one or two bytes. -/
def atob : List Char → Option (List Nat)
  | [] => some []
  | c1 :: c2 :: c3 :: c4 :: rest =>
      match decodeB64Char c1, decodeB64Char c2 with
      | some s1, some s2 =>
          if c3 = '=' then
            if c4 = '=' ∧ rest = [] then some [s1 * 4 + s2 / 16] else none
          else
            match decodeB64Char c3 with
            | some s3 =>
                if c4 = '=' then
                  if rest = [] then
                    some [s1 * 4 + s2 / 16, s2 % 16 * 16 + s3 / 4]
                  else none
                else
                  match decodeB64Char c4 with
                  | some s4 =>
                      Option.map
                        (fun bs => (s1 * 4 + s2 / 16) ::
                          (s2 % 16 * 16 + s3 / 4) ::
                          (s3 % 4 * 64 + s4) :: bs)
                        (atob rest)
                  | none => none
            | none => none
      | _, _ => none
  | _ => none

/-- The transport-text decoding performed by the playback scheduler's
`play` before scheduling: base64 text back to bytes. -/
def fromTransportText (text : List Char) : Option (List Nat) :=
  atob text

example : btoa [77, 97, 110] = ['T', 'W', 'F', 'u'] := by decide
example : atob ['T', 'W', 'F', 'u'] = some [77, 97, 110] := by decide
example : btoa [77] = ['T', 'Q', '=', '='] := by decide
example : atob ['T', 'Q', '=', '='] = some [77] := by decide

theorem atob_cons4 (s1 s2 s3 s4 : Nat) (h1 : s1 < 64) (h2 : s2 < 64)
    (h3 : s3 < 64) (h4 : s4 < 64) (rest : List Char) :
    atob (encodeB64Char s1 :: encodeB64Char s2 :: encodeB64Char s3 ::
          encodeB64Char s4 :: rest)
      = Option.map (fun bs => (s1 * 4 + s2 / 16) ::
          (s2 % 16 * 16 + s3 / 4) :: (s3 % 4 * 64 + s4) :: bs)
          (atob rest) := by
  simp only [atob]
  rw [decodeB64Char_encodeB64Char _ h1, decodeB64Char_encodeB64Char _ h2]
  dsimp only
  rw [if_neg (encodeB64Char_ne_pad _ h3), decodeB64Char_encodeB64Char _ h3]
  dsimp only
  rw [if_neg (encodeB64Char_ne_pad _ h4), decodeB64Char_encodeB64Char _ h4]

theorem atob_btoa (bytes : List Nat) :
    (∀ b ∈ bytes, b < 256) → atob (btoa bytes) = some bytes := by
  induction bytes using btoa.induct with
  | case1 => intro _; rfl
  | case2 b1 =>
      intro h
      have hb1 : b1 < 256 := h b1 (by simp)
      simp only [btoa, atob]
      rw [decodeB64Char_encodeB64Char _ (by omega),
          decodeB64Char_encodeB64Char _ (by omega)]
      dsimp only
      simp only [and_self, if_true]
      refine congrArg some ?_
      simp only [List.cons.injEq, and_true]
      omega
  | case3 b1 b2 =>
      intro h
      have hb1 : b1 < 256 := h b1 (by simp)
      have hb2 : b2 < 256 := h b2 (by simp)
      simp only [btoa, atob]
      rw [decodeB64Char_encodeB64Char _ (by omega),
          decodeB64Char_encodeB64Char _ (by omega)]
      dsimp only
      rw [if_neg (encodeB64Char_ne_pad _ (by omega)),
          decodeB64Char_encodeB64Char _ (by omega)]
      dsimp only
      simp only [if_true]
      refine congrArg some ?_
      simp only [List.cons.injEq, and_true]
      constructor <;> omega
  | case4 b1 b2 b3 rest ih =>
      intro h
      have hb1 : b1 < 256 := h b1 (by simp)
      have hb2 : b2 < 256 := h b2 (by simp)
      have hb3 : b3 < 256 := h b3 (by simp)
      have hrest : ∀ b ∈ rest, b < 256 := fun b hb => h b (by simp [hb])
      simp only [btoa]
      rw [atob_cons4 _ _ _ _ (by omega) (by omega) (by omega) (by omega) _]
      rw [ih hrest]
      simp only [Option.map_some']
      refine congrArg some ?_
      simp only [List.cons.injEq, and_true]
      refine ⟨by omega, by omega, by omega⟩

/-- C2: for every byte sequence (every byte value 0-255 in every
position), decoding the transport text produced from it gives back exactly
the original bytes: the `atob`-plus-`charCodeAt` decoding at the start of
the playback scheduler's `play` inverts `arrayBufferToBase64`. -/
theorem c2_transport_round_trip (bytes : List Nat)
    (h : ∀ b ∈ bytes, b < 256) :
    fromTransportText (arrayBufferToBase64 bytes) = some bytes :=
  atob_btoa bytes h

/-- Witness for C2 at a concrete byte sequence with low, high and middle
byte values and a 1-byte padded tail. -/
theorem c2_transport_round_trip_witness :
    fromTransportText (arrayBufferToBase64 [0, 255, 7, 128])
      = some [0, 255, 7, 128] :=
  c2_transport_round_trip [0, 255, 7, 128] (by decide)
